import Mathlib

/-!
Verification of the sandboxed filesystem access layer of the mcp-server
repository.  The development shallowly embeds the path normalization
helpers (src/path-utils.ts), the sandbox membership test
(isPathWithinAllowedDirectories), the startup configuration parsing and
allowed-directory registration (src/index.ts), and the tool-dispatch
handler cases (src/index.ts, CallToolRequestSchema handler).  Platform
primitives (node's path module, fs, JSON.parse) are modelled explicitly;
functions of filesystem-utils.js that are absent from the snapshot are
modelled from the specification and marked as such in their doc comments.
All string work is done over kernel-computable character lists.
-/

namespace McpServer

/-- Character-list test: does s start with p (String.prototype.startsWith)? -/
def strStartsWith (s p : String) : Bool :=
  p.data.isPrefixOf s.data

/-- Character-list test: does s end with p (String.prototype.endsWith)? -/
def strEndsWith (s p : String) : Bool :=
  p.data.isSuffixOf s.data

/-- Split a character list at every occurrence of the separator char. -/
def splitOnCharAux (sep : Char) : List Char → List Char → List (List Char)
  | acc, [] => [acc.reverse]
  | acc, c :: rest =>
    if c = sep then acc.reverse :: splitOnCharAux sep [] rest
    else splitOnCharAux sep (c :: acc) rest

/-- Split a string on a separator character (JS String.prototype.split with
a one-character separator). -/
def strSplitOnChar (sep : Char) (s : String) : List String :=
  (splitOnCharAux sep [] s.data).map List.asString

/-- Join a list of strings with a separator (Array.prototype.join). -/
def strJoinSep (sep : String) : List String → String
  | [] => ""
  | [x] => x
  | x :: y :: rest => x ++ sep ++ strJoinSep sep (y :: rest)

/-- Whitespace characters recognised when trimming (model of JS trim on the
character classes that occur in path strings). -/
def isWS (c : Char) : Bool :=
  c = ' ' || c = '\t' || c = '\n' || c = '\r'

/-- Model of String.prototype.trim. -/
def strTrim (s : String) : String :=
  (((s.data.dropWhile isWS).reverse.dropWhile isWS).reverse).asString

/-- Drop the first character of a string (JS s.slice(1)). -/
def strSlice1 (s : String) : String :=
  (s.data.drop 1).asString

/-- Fold step of node's normalizeString for an absolute path being resolved:
a double-dot segment pops the last collected segment (and is dropped at the
root), every other segment is appended. -/
def resolveSegStep (st : List String) (seg : String) : List String :=
  if seg = ".." then st.dropLast else st ++ [seg]

/-- Model of node's path.posix.resolve(cwd, p) for an absolute working
directory cwd (process.cwd() is always absolute): an absolute p is
normalized on its own, a relative p is normalized against cwd; `.` and
empty segments are dropped and `..` collapses, never escaping the root. -/
def resolvePosix (cwd p : String) : String :=
  let joined := if strStartsWith p "/" then p else cwd ++ "/" ++ p
  let segs := (strSplitOnChar '/' joined).filter (fun s => s != "" && s != ".")
  let out := segs.foldl resolveSegStep []
  "/" ++ strJoinSep "/" out

/-- Replace every backslash by a forward slash (the .replace(/\\/g, '/')
step of normalizePath). -/
def backslashToSlash (s : String) : String :=
  (s.data.map (fun c => if c = '\\' then '/' else c)).asString

/-- normalizePath from src/path-utils.ts:
path.resolve(filepath).replace(/\\/g, '/').  The ambient current working
directory of path.resolve is passed explicitly as cwd. -/
def normalizePath (cwd filepath : String) : String :=
  backslashToSlash (resolvePosix cwd filepath)

/-- Fold step of node's normalizeString with allowAboveRoot: a double-dot
pops the last collected segment unless that segment is itself a double-dot;
above the root it is kept for relative paths and dropped for absolute
ones. -/
def normalizeSegStep (allowAboveRoot : Bool) (st : List String) (seg : String) : List String :=
  if seg = ".." then
    match st.getLast? with
    | some t =>
      if t = ".." then (if allowAboveRoot then st ++ [".."] else st)
      else st.dropLast
    | none => if allowAboveRoot then [".."] else []
  else st ++ [seg]

/-- Model of node's path.posix.normalize: collapses `.`, `..` and repeated
separators, keeps a trailing separator, maps the empty path to `.`. -/
def normalizePosix (p : String) : String :=
  if p = "" then "."
  else
    let isAbs := strStartsWith p "/"
    let hasTrail := strEndsWith p "/"
    let segs := (strSplitOnChar '/' p).filter (fun s => s != "" && s != ".")
    let out := segs.foldl (normalizeSegStep (!isAbs)) []
    let body := strJoinSep "/" out
    let base := if isAbs then "/" ++ body else if body = "" then "." else body
    if hasTrail && !(strEndsWith base "/") then base ++ "/" else base

/-- Model of node's path.posix.join: drop empty parts, concatenate with a
separator, normalize; an empty join yields `.`. -/
def pathJoin (parts : List String) : String :=
  let joined := strJoinSep "/" (parts.filter (fun s => s != ""))
  if joined = "" then "." else normalizePosix joined

/-- expandHome from src/path-utils.ts: inputs that are exactly `~` or start
with `~/` have the tilde replaced by the invoking user's home directory
(passed explicitly as home); everything else is returned unchanged. -/
def expandHome (home filepath : String) : String :=
  if strStartsWith filepath "~/" || filepath == "~" then
    pathJoin [home, strSlice1 filepath]
  else filepath

/-- isPathWithinAllowedDirectories from the path-validation module: the
normalized target is compared against each normalized allowed directory,
either for equality or for a prefix match after giving both sides a
trailing slash (added only when not already present). -/
def isPathWithinAllowedDirectories (cwd targetPath : String)
    (allowedDirectories : List String) : Bool :=
  let normalizedTarget := normalizePath cwd targetPath
  allowedDirectories.any fun allowedDir =>
    let normalizedAllowed := normalizePath cwd allowedDir
    let allowedWithSlash :=
      if strEndsWith normalizedAllowed "/" then normalizedAllowed
      else normalizedAllowed ++ "/"
    let targetWithSlash :=
      if strEndsWith normalizedTarget "/" then normalizedTarget
      else normalizedTarget ++ "/"
    (normalizedTarget == normalizedAllowed) ||
      strStartsWith targetWithSlash allowedWithSlash

/-- Give a string a trailing slash when it does not already end with one
(the allowedWithSlash / targetWithSlash construction of the membership
test). -/
def ensureTrailingSlash (s : String) : String :=
  if strEndsWith s "/" then s else s ++ "/"

/-- Membership condition exactly as claim C1 words it: the normalized
target equals the normalized directory, or the normalized target with a
trailing slash appended starts with the normalized directory with a
trailing slash appended (the slash appended unconditionally). -/
def claimedMembership (cwd targetPath : String)
    (allowedDirectories : List String) : Bool :=
  let nt := normalizePath cwd targetPath
  allowedDirectories.any fun d =>
    let nd := normalizePath cwd d
    (nt == nd) || strStartsWith (nt ++ "/") (nd ++ "/")

/-- Values that JSON.parse can return.  JSON.parse itself is a platform
primitive and is passed to the configuration parser as an abstract
function; object fields are irrelevant to every use (only the String()
rendering of a value is ever taken) and are not carried. -/
inductive JsValue where
  | str (s : String)
  | num (n : Int)
  | bool (b : Bool)
  | null
  | arr (xs : List JsValue)
  | obj

mutual

/-- Model of the JS String() conversion applied to each parsed element. -/
def jsToString : JsValue → String
  | .str s => s
  | .num n => toString n
  | .bool true => "true"
  | .bool false => "false"
  | .null => "null"
  | .obj => "[object Object]"
  | .arr xs => strJoinSep "," (jsArrElems xs)

/-- Array elements under String(): null renders as the empty string inside
Array.prototype.join, every other element by its own String() form. -/
def jsArrElems : List JsValue → List String
  | [] => []
  | .null :: rest => "" :: jsArrElems rest
  | v :: rest => jsToString v :: jsArrElems rest

end

/-- Per-entry resolution step of parseAllowedDirectories:
path.isAbsolute(dir) ? dir : path.resolve(dir) — an absolute entry is kept
verbatim, a relative one is resolved against the current working
directory. -/
def resolveEntry (cwd d : String) : String :=
  if strStartsWith d "/" then d else resolvePosix cwd d

/-- parseAllowedDirectories from src/index.ts: an unset or empty variable
yields the empty list; when JSON.parse succeeds with an array, each element
is stringified and resolved; when JSON.parse fails (modelled as none) or
yields a non-array, the raw variable is split on commas, entries trimmed,
empties dropped, and each entry resolved. -/
def parseAllowedDirectories (cwd : String) (jsonParse : String → Option JsValue)
    (envVar : Option String) : List String :=
  match envVar with
  | none => []
  | some s =>
    if s = "" then []
    else
      match jsonParse s with
      | some (JsValue.arr xs) => xs.map (fun v => resolveEntry cwd (jsToString v))
      | _ =>
        (((strSplitOnChar ',' s).map strTrim).filter (fun d => d != "")).map
          (resolveEntry cwd)

/-- Auxiliary of dedupFirst carrying the set of strings already kept. -/
def dedupFirstAux (seen : List String) : List String → List String
  | [] => []
  | x :: xs =>
    if x ∈ seen then dedupFirstAux seen xs
    else x :: dedupFirstAux (x :: seen) xs

/-- Model of JS `[...new Set(l)]`: keep the first occurrence of every
string, in insertion order. -/
def dedupFirst (l : List String) : List String :=
  dedupFirstAux [] l

/-- allowedDirs from src/index.ts: the current working directory and the
script directory, followed by the user-supplied directories, with exact
string duplicates removed by Set insertion order. -/
def buildAllowedDirs (cwd scriptDir : String)
    (jsonParse : String → Option JsValue) (envVar : Option String) : List String :=
  dedupFirst ([cwd, scriptDir] ++ parseAllowedDirectories cwd jsonParse envVar)

/-- Decidable check that f gives a different value on every pair of list
members (used to state de-duplication up to normalization). -/
def pairwiseDistinctBy (f : String → String) : List String → Bool
  | [] => true
  | x :: xs => xs.all (fun y => f x != f y) && pairwiseDistinctBy f xs

/-- Directory entry as returned by fs.readdir with withFileTypes. -/
structure DirEnt where
  name : String
  isFile : Bool
  isDir : Bool

/-- One edit operation of the edit_file tool (oldText searched, newText
substituted). -/
structure EditArg where
  oldText : String
  newText : String

/-- Oracles for validatePath and the other functions of
filesystem-utils.js (absent from the snapshot) together with the node fs
primitives the handler calls directly; a thrown JS error is an Except
error. -/
structure Ops where
  validatePath : String → Except String String
  readdir : String → Except String (List DirEnt)
  statSize : String → Except String Nat
  readFileContent : String → Except String String
  writeFileContent : String → String → Except String Unit
  headFile : String → Int → Except String String
  tailFile : String → Int → Except String String
  getFileStats : String → Except String String
  applyFileEdits : String → List EditArg → Bool → Except String String
  mkdir : String → Except String Unit
  rename : String → String → Except String Unit
  searchFiles : String → String → List String → List String → Except String (List String)
  allowedDirectories : List String

/-- Observable events of one handler invocation: a validatePath call with
its raw argument and outcome, and each filesystem primitive invocation
with the path it receives. -/
inductive Event where
  | validate (raw : String) (res : Except String String)
  | access (path : String)

/-- JS truthiness of a numeric tool argument: present and non-zero
(args.head && typeof args.head === 'number'). -/
def jsTruthyNum : Option Int → Bool
  | some n => n != 0
  | none => false

/-- list_directory case: validate, then fs.readdir on the validated
path. -/
def runListDirectory (o : Ops) (raw : String) : Except String Unit × List Event :=
  match o.validatePath raw with
  | .error e => (.error e, [.validate raw (.error e)])
  | .ok v => ((o.readdir v).map (fun _ => ()), [.validate raw (.ok v), .access v])

/-- list_directory_with_sizes case: validate, fs.readdir on the validated
path, then fs.stat on path.join(validatedPath, entry.name) for each file
entry (stat failures are caught and ignored); sorting and rendering are
pure and touch no paths. -/
def runListDirectoryWithSizes (o : Ops) (raw : String) :
    Except String Unit × List Event :=
  match o.validatePath raw with
  | .error e => (.error e, [.validate raw (.error e)])
  | .ok v =>
    match o.readdir v with
    | .error e => (.error e, [.validate raw (.ok v), .access v])
    | .ok entries =>
      (.ok (), [.validate raw (.ok v), .access v] ++
        entries.filterMap (fun en =>
          if en.isFile then some (Event.access (pathJoin [v, en.name])) else none))

/-- get_file_info case: validate, then getFileStats on the validated
path. -/
def runGetFileInfo (o : Ops) (raw : String) : Except String Unit × List Event :=
  match o.validatePath raw with
  | .error e => (.error e, [.validate raw (.error e)])
  | .ok v => ((o.getFileStats v).map (fun _ => ()), [.validate raw (.ok v), .access v])

/-- read_text_file case: validate, then headFile when head is truthy, else
tailFile when tail is truthy, else readFileContent — always on the
validated path. -/
def runReadTextFile (o : Ops) (raw : String) (head tail : Option Int) :
    Except String Unit × List Event :=
  match o.validatePath raw with
  | .error e => (.error e, [.validate raw (.error e)])
  | .ok v =>
    let r :=
      if jsTruthyNum head then (o.headFile v (head.getD 0)).map (fun _ => ())
      else if jsTruthyNum tail then (o.tailFile v (tail.getD 0)).map (fun _ => ())
      else (o.readFileContent v).map (fun _ => ())
    (r, [.validate raw (.ok v), .access v])

/-- Trace of the read_multiple_files loop: per input path a validatePath
call, and on success a readFileContent call on the validated path; both
failures are caught in the loop body, so the iteration always continues. -/
def runReadMultipleFilesTrace (o : Ops) : List String → List Event
  | [] => []
  | p :: ps =>
    (match o.validatePath p with
     | .error e => [Event.validate p (.error e)]
     | .ok v => [Event.validate p (.ok v), Event.access v]) ++
      runReadMultipleFilesTrace o ps

/-- read_multiple_files case: the loop never throws (errors land in the
per-path result slots). -/
def runReadMultipleFiles (o : Ops) (paths : List String) :
    Except String Unit × List Event :=
  (.ok (), runReadMultipleFilesTrace o paths)

/-- write_file case: validate, then writeFileContent on the validated
path. -/
def runWriteFile (o : Ops) (raw content : String) : Except String Unit × List Event :=
  match o.validatePath raw with
  | .error e => (.error e, [.validate raw (.error e)])
  | .ok v => (o.writeFileContent v content, [.validate raw (.ok v), .access v])

/-- edit_file case: validate, then applyFileEdits on the validated path. -/
def runEditFile (o : Ops) (raw : String) (edits : List EditArg) (dryRun : Bool) :
    Except String Unit × List Event :=
  match o.validatePath raw with
  | .error e => (.error e, [.validate raw (.error e)])
  | .ok v =>
    ((o.applyFileEdits v edits dryRun).map (fun _ => ()),
      [.validate raw (.ok v), .access v])

/-- create_directory case: validate, then fs.mkdir recursive on the
validated path. -/
def runCreateDirectory (o : Ops) (raw : String) : Except String Unit × List Event :=
  match o.validatePath raw with
  | .error e => (.error e, [.validate raw (.error e)])
  | .ok v => (o.mkdir v, [.validate raw (.ok v), .access v])

/-- move_file case: validate the source, validate the destination, then
fs.rename on the two validated paths. -/
def runMoveFile (o : Ops) (src dst : String) : Except String Unit × List Event :=
  match o.validatePath src with
  | .error e => (.error e, [.validate src (.error e)])
  | .ok s =>
    match o.validatePath dst with
    | .error e => (.error e, [.validate src (.ok s), .validate dst (.error e)])
    | .ok d =>
      (o.rename s d, [.validate src (.ok s), .validate dst (.ok d),
        .access s, .access d])

/-- search_files case: validate, then searchFilesWithValidation on the
validated path with the registered allowed directories. -/
def runSearchFiles (o : Ops) (raw pat : String) (excludePatterns : List String) :
    Except String Unit × List Event :=
  match o.validatePath raw with
  | .error e => (.error e, [.validate raw (.error e)])
  | .ok v =>
    ((o.searchFiles v pat o.allowedDirectories excludePatterns).map (fun _ => ()),
      [.validate raw (.ok v), .access v])

/-- The filesystem surface of the CallToolRequestSchema handler. -/
inductive ToolCall where
  | listAllowedDirectories
  | listDirectory (path : String)
  | listDirectoryWithSizes (path : String) (sortBy : Option String)
  | getFileInfo (path : String)
  | readTextFile (path : String) (head tail : Option Int)
  | readMultipleFiles (paths : List String)
  | writeFile (path content : String)
  | editFile (path : String) (edits : List EditArg) (dryRun : Bool)
  | createDirectory (path : String)
  | moveFile (source destination : String)
  | searchFiles (path pat : String) (excludePatterns : List String)

/-- Dispatch of the handler's filesystem cases; list_allowed_directories
returns the registered list and touches no path. -/
def runTool (o : Ops) : ToolCall → Except String Unit × List Event
  | .listAllowedDirectories => (.ok (), [])
  | .listDirectory p => runListDirectory o p
  | .listDirectoryWithSizes p _ => runListDirectoryWithSizes o p
  | .getFileInfo p => runGetFileInfo o p
  | .readTextFile p h t => runReadTextFile o p h t
  | .readMultipleFiles ps => runReadMultipleFiles o ps
  | .writeFile p c => runWriteFile o p c
  | .editFile p es d => runEditFile o p es d
  | .createDirectory p => runCreateDirectory o p
  | .moveFile s d => runMoveFile o s d
  | .searchFiles p pat ex => runSearchFiles o p pat ex

/-- A path stems from a validated path v when it is v itself or a join of
v with a further name (the stat calls of list_directory_with_sizes). -/
def Derived (v p : String) : Prop :=
  p = v ∨ ∃ n, p = pathJoin [v, n]

/-- Trace discipline: scanning left to right while collecting the results
of successful validatePath calls, every filesystem access must use a path
derived from an already validated one. -/
def Guarded : List String → List Event → Prop
  | _, [] => True
  | oks, Event.validate _ (Except.ok v) :: rest => Guarded (v :: oks) rest
  | oks, Event.validate _ (Except.error _) :: rest => Guarded oks rest
  | oks, Event.access p :: rest =>
    (∃ v ∈ oks, Derived v p) ∧ Guarded oks rest

/-- Error taxonomy of the specification (§7). -/
inductive FsError where
  | outsideAllowed
  | notFound (path : String)
  | editNotFound (oldText : String)
  | invalidArgument
deriving DecidableEq

/-- Modelled from the spec: headFile of filesystem-utils.js (absent from
the snapshot) returns the file's first n lines newline-joined with no
trailing blank line added (§6); a non-positive count is an InvalidArgument
error (§7). -/
def headFileM (content : String) (n : Int) : Except FsError String :=
  if n ≤ 0 then .error .invalidArgument
  else .ok (strJoinSep "\n" ((strSplitOnChar '\n' content).take n.toNat))

/-- Modelled from the spec: tailFile of filesystem-utils.js (absent from
the snapshot) returns the file's last n lines newline-joined (§6); a
non-positive count is an InvalidArgument error (§7). -/
def tailFileM (content : String) (n : Int) : Except FsError String :=
  if n ≤ 0 then .error .invalidArgument
  else
    let ls := strSplitOnChar '\n' content
    .ok (strJoinSep "\n" (ls.drop (ls.length - n.toNat)))

/-- read_text_file branch structure from src/index.ts over the content of
an already validated file: args.head, when truthy and a number, selects
headFile; otherwise args.tail likewise selects tailFile; otherwise the
full content is returned.  A JS count of 0 is falsy and falls through. -/
def readTextFileOp (content : String) (head tail : Option Int) :
    Except FsError String :=
  if jsTruthyNum head then headFileM content (head.getD 0)
  else if jsTruthyNum tail then tailFileM content (tail.getD 0)
  else .ok content

/-- Association-list filesystem: lookup of a path's content. -/
def lookupFS : List (String × String) → String → Option String
  | [], _ => none
  | (k, v) :: rest, p => if k = p then some v else lookupFS rest p

/-- Association-list filesystem: remove a path. -/
def removeFS : List (String × String) → String → List (String × String)
  | [], _ => []
  | (k, v) :: rest, p => if k = p then removeFS rest p else (k, v) :: removeFS rest p

/-- Association-list filesystem: set a path's content in place, appending
when absent. -/
def setFS : List (String × String) → String → String → List (String × String)
  | [], p, c => [(p, c)]
  | (k, v) :: rest, p, c =>
    if k = p then (p, c) :: rest else (k, v) :: setFS rest p c

/-- POSIX semantics of fs.rename: fails with ENOENT when the source does
not exist, otherwise moves the source entry to the destination, silently
replacing an existing destination entry. -/
def renameFS (fs : List (String × String)) (src dst : String) :
    Except FsError (List (String × String)) :=
  match lookupFS fs src with
  | none => .error (.notFound src)
  | some c => .ok (setFS (removeFS fs src) dst c)

/-- move_file case of the handler over the association-list filesystem:
validate the source, validate the destination, call fs.rename; the handler
performs no destination-exists check before the rename. -/
def moveFileOp (validate : String → Except FsError String)
    (fs : List (String × String)) (src dst : String) :
    Except FsError (List (String × String)) :=
  match validate src with
  | .error e => .error e
  | .ok s =>
    match validate dst with
    | .error e => .error e
    | .ok d => renameFS fs s d

/-- Result slot of read_multiple_files: the raw path echoed back with
either its content or the captured error message. -/
structure ReadSlot where
  path : String
  content : Option String
  error : Option String
deriving DecidableEq

/-- Body of the read_multiple_files loop for one path: validate then read,
with any error of either step caught and recorded in the slot. -/
def readOneFile (validate readF : String → Except String String)
    (p : String) : ReadSlot :=
  match validate p with
  | .error e => ⟨p, none, some e⟩
  | .ok v =>
    match readF v with
    | .error e => ⟨p, none, some e⟩
    | .ok c => ⟨p, some c, none⟩

/-- The read_multiple_files loop: one slot pushed per input path, in input
order, the loop never aborting. -/
def readMultipleFiles (validate readF : String → Except String String) :
    List String → List ReadSlot
  | [] => []
  | p :: ps => readOneFile validate readF p :: readMultipleFiles validate readF ps

/-- CRLF to LF normalization applied to content on read. -/
def crlfToLf : List Char → List Char
  | [] => []
  | '\r' :: '\n' :: rest => '\n' :: crlfToLf rest
  | c :: rest => c :: crlfToLf rest

/-- Does the raw content use CRLF line endings anywhere? -/
def containsCRLF : List Char → Bool
  | [] => false
  | '\r' :: '\n' :: _ => true
  | _ :: rest => containsCRLF rest

/-- LF back to CRLF, restoring the original convention on write. -/
def lfToCrlf : List Char → List Char
  | [] => []
  | '\n' :: rest => '\r' :: '\n' :: lfToCrlf rest
  | c :: rest => c :: lfToCrlf rest

/-- Split a character list at the first occurrence of pat, returning the
part before and the part after; none when pat does not occur. -/
def splitFirst (pat : List Char) : List Char → Option (List Char × List Char)
  | [] => if pat.isEmpty then some ([], []) else none
  | c :: rest =>
    if pat.isPrefixOf (c :: rest) then some ([], (c :: rest).drop pat.length)
    else
      match splitFirst pat rest with
      | some (b, a) => some (c :: b, a)
      | none => none

/-- Replace the first exact occurrence of old in s by new; none when old
does not occur. -/
def replaceFirstStr (s old new : String) : Option String :=
  (splitFirst old.data s.data).map (fun ba => (ba.1 ++ new.data ++ ba.2).asString)

/-- Equality of two lines up to leading and trailing whitespace. -/
def trimEq (a b : String) : Bool :=
  strTrim a == strTrim b

/-- Leading whitespace of a line (its indentation). -/
def leadingWS (s : String) : String :=
  (s.data.takeWhile isWS).asString

/-- A line with its leading whitespace removed. -/
def trimLeading (s : String) : String :=
  (s.data.dropWhile isWS).asString

/-- Does the search text, line by line and whitespace-trimmed, match the
window starting at the head of the remaining lines? -/
def windowMatches : List String → List String → Bool
  | [], _ => true
  | _ :: _, [] => false
  | o :: os, l :: ls => trimEq l o && windowMatches os ls

/-- Find the first whitespace-tolerant match of the search lines inside
the content lines, returning the lines before the window, the indentation
of the first matched line, and the lines after the window. -/
def findWindow (old : List String) :
    List String → Option (List String × String × List String)
  | [] => none
  | l :: ls =>
    if windowMatches old (l :: ls) then
      some ([], leadingWS l, (l :: ls).drop old.length)
    else
      match findWindow old ls with
      | some (b, ind, a) => some (l :: b, ind, a)
      | none => none

/-- Modelled from the spec: one edit of applyFileEdits (§4.3).  The search
text is looked up verbatim and its first occurrence replaced; otherwise a
whitespace-tolerant line-window match is tried, substituting the
replacement lines re-indented uniformly with the first matched line's
original indentation; none when neither matches. -/
def applyOneEdit (content : String) (e : EditArg) : Option String :=
  let old := (crlfToLf e.oldText.data).asString
  let repl := (crlfToLf e.newText.data).asString
  match replaceFirstStr content old repl with
  | some c => some c
  | none =>
    let cls := strSplitOnChar '\n' content
    let ols := strSplitOnChar '\n' old
    match findWindow ols cls with
    | some (b, ind, a) =>
      let nls := (strSplitOnChar '\n' repl).map (fun l => ind ++ trimLeading l)
      some (strJoinSep "\n" (b ++ nls ++ a))
    | none => none

/-- Modelled from the spec: the sequential edit loop of applyFileEdits —
each edit is applied to the result of the previous one; an unmatched edit
fails the whole call with EditNotFound naming its search text. -/
def applyEditsSeq (content : String) : List EditArg → Except FsError String
  | [] => .ok content
  | e :: es =>
    match applyOneEdit content e with
    | some c => applyEditsSeq c es
    | none => .error (.editNotFound e.oldText)

/-- Modelled from the spec: the textual unified diff between pre-edit and
post-edit content; identical contents yield a diff with no hunks.  The
rendering is a simple whole-content line diff — the claims exercise only
that the identical diff text is produced with and without dryRun. -/
def unifiedDiff (orig final : String) : String :=
  if orig = final then "--- original\n+++ modified\n"
  else
    "--- original\n+++ modified\n" ++
      strJoinSep "\n" ((strSplitOnChar '\n' orig).map (fun l => "-" ++ l)) ++ "\n" ++
      strJoinSep "\n" ((strSplitOnChar '\n' final).map (fun l => "+" ++ l)) ++ "\n"

/-- Modelled from the spec: applyFileEdits of filesystem-utils.js (absent
from the snapshot), §4.3: read the file's content with CRLF normalized to
LF, apply the edits in order, compute the unified diff, and either return
it without touching the filesystem (dryRun true) or write the final
content back to the validated path (restoring CRLF when the original used
it) and return the diff. -/
def applyFileEditsM (fs : List (String × String)) (validatedPath : String)
    (edits : List EditArg) (dryRun : Bool) :
    Except FsError (String × List (String × String)) :=
  match lookupFS fs validatedPath with
  | none => .error (.notFound validatedPath)
  | some raw =>
    let hadCRLF := containsCRLF raw.data
    let content := (crlfToLf raw.data).asString
    match applyEditsSeq content edits with
    | .error e => .error e
    | .ok final =>
      let diff := unifiedDiff content final
      if dryRun then .ok (diff, fs)
      else
        .ok (diff, setFS fs validatedPath
          (if hadCRLF then (lfToCrlf final.data).asString else final))

end McpServer

namespace McpServer

/-- Claim C10: with an empty allowed-directory list the sandbox membership
test denies every target path. -/
theorem isPathWithinAllowedDirectories_empty (cwd t : String) :
    isPathWithinAllowedDirectories cwd t [] = false := rfl

/-- Claim C9: expandHome returns the home directory joined with the
remainder (the input with its first character removed) exactly when the
input is `~` or starts with `~/`, and returns every other input unchanged
— in particular `~user/x`, where the tilde is followed by a character
other than `/`, is untouched. -/
theorem expandHome_spec :
    (∀ home p, expandHome home p =
      if p = "~" ∨ strStartsWith p "~/" = true then pathJoin [home, strSlice1 p]
      else p) ∧
    expandHome "/home/u" "~user/x" = "~user/x" := by
  constructor
  · intro home p
    unfold expandHome
    by_cases h1 : p = "~" <;> by_cases h2 : strStartsWith p "~/" = true <;>
      simp [h1, h2]
  · rfl

/-- Claim C3 (code bug): the move_file handler performs no
destination-exists check — with both paths admitted by validation and the
destination /d/b existing with content "B", moving /d/a onto it succeeds
(fs.rename, POSIX overwrite semantics) and replaces the destination with
the source's content, contradicting the tool description "If the
destination exists, the operation will fail". -/
theorem moveFileOp_overwrites_destination :
    moveFileOp Except.ok [("/d/a", "A"), ("/d/b", "B")] "/d/a" "/d/b" =
      .ok [("/d/b", "A")] := rfl

/-- Claim C4 fails as stated at count 0: a read_text_file request with
head = 0 returns the full file content instead of failing — 0 is falsy in
JS, so the handler treats the parameter as absent. -/
theorem claim_C4_counterexample :
    readTextFileOp "line1\nline2" (some 0) none = .ok "line1\nline2" := rfl

/-- Claim C4 amended: a strictly negative head or tail count fails with
InvalidArgument (headFile/tailFile, modelled from the spec, reject
non-positive counts), while a count of exactly 0 is treated as an absent
parameter by the handler's JS truthiness test and the full content is
returned. -/
theorem readTextFileOp_nonpositive (content : String) (n : Int) :
    (n < 0 →
      readTextFileOp content (some n) none = .error .invalidArgument ∧
      readTextFileOp content none (some n) = .error .invalidArgument) ∧
    readTextFileOp content (some 0) none = .ok content ∧
    readTextFileOp content none (some 0) = .ok content := by
  refine ⟨fun hn => ?_, rfl, rfl⟩
  have hne : (n != 0) = true := by simpa using hn.ne
  constructor <;>
    simp [readTextFileOp, jsTruthyNum, hne, headFileM, tailFileM, hn.le]

/-- Witness for the amended C4 theorem at head = -1 and the 0 cases. -/
theorem readTextFileOp_nonpositive_witness :
    readTextFileOp "a" (some (-1)) none = .error .invalidArgument ∧
    readTextFileOp "a" (some 0) none = .ok "a" :=
  ⟨((readTextFileOp_nonpositive "a" (-1)).1 (by decide)).1,
    (readTextFileOp_nonpositive "a" 0).2.1⟩

/-- Claim C5: the read_multiple_files loop produces exactly one slot per
input path, in input order, each slot the validate-then-read outcome of
its own path — a failing path's error is captured in its slot and never
aborts the remaining paths. -/
theorem readMultipleFiles_slots (validate readF : String → Except String String)
    (paths : List String) :
    readMultipleFiles validate readF paths =
      paths.map (readOneFile validate readF) ∧
    (readMultipleFiles validate readF paths).length = paths.length := by
  have h : ∀ ps : List String,
      readMultipleFiles validate readF ps = ps.map (readOneFile validate readF) := by
    intro ps
    induction ps with
    | nil => rfl
    | cons p rest ih => simp [readMultipleFiles, ih]
  exact ⟨h paths, by rw [h paths]; simp⟩

/-- Claim C8: with dryRun true, applyFileEdits returns exactly the diff
(or the error) that the non-dry run produces, and the filesystem after the
call is identical to the filesystem before it — the file's on-disk content
is untouched. -/
theorem applyFileEditsM_dryRun (fs : List (String × String)) (p : String)
    (edits : List EditArg) :
    applyFileEditsM fs p edits true =
      (applyFileEditsM fs p edits false).map (fun r => (r.1, fs)) := by
  unfold applyFileEditsM
  cases lookupFS fs p with
  | none => rfl
  | some raw =>
    cases h : applyEditsSeq ((crlfToLf raw.data).asString) edits <;>
      simp [h, Except.map]

/-- Every string built by prepending a slash starts with a slash. -/
theorem startsWithSlash_append (s : String) :
    strStartsWith ("/" ++ s) "/" = true := by
  show List.isPrefixOf "/".data ("/" ++ s).data = true
  simp [String.data_append, List.isPrefixOf]

/-- resolvePosix always produces an absolute (slash-led) path. -/
theorem resolvePosix_abs (cwd p : String) :
    strStartsWith (resolvePosix cwd p) "/" = true := by
  unfold resolvePosix
  exact startsWithSlash_append _

/-- resolveEntry always produces an absolute (slash-led) path. -/
theorem resolveEntry_abs (cwd d : String) :
    strStartsWith (resolveEntry cwd d) "/" = true := by
  unfold resolveEntry
  split
  · assumption
  · exact resolvePosix_abs cwd d

/-- Claim C1 fails as stated at the root directory: with allowed
directory `/`, the target `/foo` is admitted by the code (the code adds a
trailing slash only when one is not already present, so the root compares
as "/"), but the claim's condition — a slash appended unconditionally to
both normalized sides — does not hold there. -/
theorem claim_C1_counterexample :
    isPathWithinAllowedDirectories "/" "/foo" ["/"] = true ∧
    claimedMembership "/" "/foo" ["/"] = false :=
  ⟨by decide, by decide⟩

/-- Claim C1 amended: the membership test returns true exactly when some
allowed directory's normalized form equals the normalized target or
prefixes it after giving both sides a trailing slash, the slash being
added only when not already present (after normalization that differs
from unconditional appending only at the root `/`); in particular
/home/alice-secret/file.txt is not admitted when /home/alice is allowed. -/
theorem isPathWithinAllowedDirectories_spec :
    (∀ cwd t ds, isPathWithinAllowedDirectories cwd t ds = true ↔
      ∃ d ∈ ds, normalizePath cwd t = normalizePath cwd d ∨
        strStartsWith (ensureTrailingSlash (normalizePath cwd t))
          (ensureTrailingSlash (normalizePath cwd d)) = true) ∧
    isPathWithinAllowedDirectories "/" "/home/alice-secret/file.txt"
      ["/home/alice"] = false := by
  refine ⟨fun cwd t ds => ?_, by decide⟩
  simp [isPathWithinAllowedDirectories, ensureTrailingSlash, List.any_eq_true]

/-- dedupFirstAux produces a duplicate-free list none of whose members
were already seen. -/
theorem dedupFirstAux_nodup (l : List String) :
    ∀ seen, (dedupFirstAux seen l).Nodup ∧
      ∀ x ∈ dedupFirstAux seen l, x ∉ seen := by
  induction l with
  | nil => intro seen; simp [dedupFirstAux]
  | cons x xs ih =>
    intro seen
    by_cases hx : x ∈ seen
    · simpa [dedupFirstAux, hx] using ih seen
    · simp only [dedupFirstAux, if_neg hx]
      refine ⟨List.nodup_cons.mpr ⟨fun hmem => ?_, (ih (x :: seen)).1⟩, ?_⟩
      · exact (ih (x :: seen)).2 x hmem (List.mem_cons_self x seen)
      · intro y hy
        rcases List.mem_cons.mp hy with rfl | hy2
        · exact hx
        · exact fun hseen =>
            (ih (x :: seen)).2 y hy2 (List.mem_cons_of_mem _ hseen)

/-- Claim C6 fails as stated: the Set-based de-duplication compares exact
raw strings, so with working directory /a/b and the user entry /a/b/.
(absolute, hence kept verbatim by parseAllowedDirectories) the registered
list keeps both spellings even though they normalize identically. -/
theorem claim_C6_counterexample :
    buildAllowedDirs "/a/b" "/s" (fun _ => none) (some "/a/b/.") =
      ["/a/b", "/s", "/a/b/."] ∧
    pairwiseDistinctBy (normalizePath "/a/b")
      (buildAllowedDirs "/a/b" "/s" (fun _ => none) (some "/a/b/.")) = false :=
  ⟨by decide, by decide⟩

/-- Claim C6 amended: the registered allowed-directory list is
de-duplicated by exact string equality (JS Set insertion), not by
normalized string: no two of its members are equal as raw strings, but
distinct spellings of one directory can both remain. -/
theorem buildAllowedDirs_nodup (cwd scriptDir : String)
    (jsonParse : String → Option JsValue) (envVar : Option String) :
    (buildAllowedDirs cwd scriptDir jsonParse envVar).Nodup :=
  (dedupFirstAux_nodup _ []).1

/-- Claim C7: parseAllowedDirectories returns the empty list on unset or
empty input; when JSON.parse yields an array it stringifies and resolves
each element; when JSON.parse fails or yields a non-array it splits the
raw input on commas, trims, drops empties and resolves each entry;
relative entries are resolved against the working directory, so every
returned entry is absolute. -/
theorem parseAllowedDirectories_spec :
    (∀ cwd jp, parseAllowedDirectories cwd jp none = [] ∧
      parseAllowedDirectories cwd jp (some "") = []) ∧
    (∀ cwd jp s xs, s ≠ "" → jp s = some (JsValue.arr xs) →
      parseAllowedDirectories cwd jp (some s) =
        xs.map (fun v => resolveEntry cwd (jsToString v))) ∧
    (∀ cwd jp s, s ≠ "" → (∀ xs, jp s ≠ some (JsValue.arr xs)) →
      parseAllowedDirectories cwd jp (some s) =
        (((strSplitOnChar ',' s).map strTrim).filter (fun d => d != "")).map
          (resolveEntry cwd)) ∧
    (∀ cwd jp envVar e, strStartsWith cwd "/" = true →
      e ∈ parseAllowedDirectories cwd jp envVar →
      strStartsWith e "/" = true) := by
  refine ⟨fun cwd jp => ⟨rfl, rfl⟩, fun cwd jp s xs hs harr => ?_,
    fun cwd jp s hs hnot => ?_, fun cwd jp envVar e _ hmem => ?_⟩
  · simp [parseAllowedDirectories, hs, harr]
  · simp only [parseAllowedDirectories, if_neg hs]
  · cases envVar with
    | none => simp [parseAllowedDirectories] at hmem
    | some s =>
      by_cases hs : s = ""
      · simp [parseAllowedDirectories, hs] at hmem
      · simp only [parseAllowedDirectories, if_neg hs] at hmem
        rcases hj : jp s with _ | v
        · rw [hj] at hmem
          rcases List.mem_map.mp hmem with ⟨d, _, rfl⟩
          exact resolveEntry_abs cwd d
        · rw [hj] at hmem
          cases v <;>
            first
            | (rcases List.mem_map.mp hmem with ⟨d, _, rfl⟩
               exact resolveEntry_abs cwd (jsToString d))
            | (rcases List.mem_map.mp hmem with ⟨d, _, rfl⟩
               exact resolveEntry_abs cwd d)

/-- Witness for C7: the unset, JSON-array and comma modes evaluated at
concrete inputs through the theorem, and absoluteness of a produced
entry. -/
theorem parseAllowedDirectories_spec_witness :
    parseAllowedDirectories "/w" (fun _ => none) none = [] ∧
    parseAllowedDirectories "/w"
      (fun s => if s = "[1]" then some (.arr [.num 1]) else none)
      (some "[1]") = ["/w/1"] ∧
    parseAllowedDirectories "/w" (fun _ => none) (some " a, b ,") =
      ["/w/a", "/w/b"] ∧
    strStartsWith "/w/a" "/" = true := by
  refine ⟨(parseAllowedDirectories_spec.1 "/w" (fun _ => none)).1, ?_, ?_, ?_⟩
  · have h := parseAllowedDirectories_spec.2.1 "/w"
      (fun s => if s = "[1]" then some (.arr [.num 1]) else none)
      "[1]" [.num 1] (by decide) (by simp)
    exact h.trans (by decide)
  · have h := parseAllowedDirectories_spec.2.2.1 "/w" (fun _ => none)
      " a, b ," (by decide) (fun xs hx => by simp at hx)
    exact h.trans (by decide)
  · exact parseAllowedDirectories_spec.2.2.2 "/w" (fun _ => none)
      (some " a, b ,") "/w/a" (by decide)
      (by
        have h := parseAllowedDirectories_spec.2.2.1 "/w" (fun _ => none)
          " a, b ," (by decide) (fun xs hx => by simp at hx)
        rw [h]
        decide)

/-- A trace consisting only of the per-entry stat calls of
list_directory_with_sizes is guarded once the validated directory is among
the sanctioned paths. -/
theorem guarded_stat_calls (v : String) (oks : List String) (hv : v ∈ oks)
    (entries : List DirEnt) :
    Guarded oks (entries.filterMap fun en =>
      if en.isFile then some (Event.access (pathJoin [v, en.name])) else none) := by
  induction entries with
  | nil => simp [Guarded]
  | cons en rest ih =>
    by_cases h : en.isFile = true
    · simp only [List.filterMap_cons, h, if_true, Guarded]
      exact ⟨⟨v, hv, Or.inr ⟨en.name, rfl⟩⟩, ih⟩
    · simpa [List.filterMap_cons, h] using ih

/-- The read_multiple_files loop trace is guarded from any starting set of
sanctioned paths: each iteration validates its own path before the read
that uses the validated result. -/
theorem guarded_read_loop (o : Ops) (ps : List String) :
    ∀ oks, Guarded oks (runReadMultipleFilesTrace o ps) := by
  induction ps with
  | nil => intro oks; simp [runReadMultipleFilesTrace, Guarded]
  | cons p rest ih =>
    intro oks
    simp only [runReadMultipleFilesTrace]
    cases o.validatePath p with
    | error e => simpa [Guarded] using ih oks
    | ok v =>
      simp only [List.cons_append, List.nil_append, Guarded]
      exact ⟨⟨v, List.mem_cons_self v oks, Or.inl rfl⟩, ih (v :: oks)⟩

/-- Claim C2: every filesystem case of the tool handler validates its raw
path argument(s) through validatePath before any filesystem access, and
every access uses a validated result (or, for the stat calls of
list_directory_with_sizes, a join of the validated directory with an entry
name); in particular a failed validation means no access happens at all,
and no case receives a pre-validated path — the handler's inputs are the
raw strings. -/
theorem runTool_guarded (o : Ops) (c : ToolCall) :
    Guarded [] (runTool o c).2 := by
  cases c with
  | listAllowedDirectories => simp [runTool, Guarded]
  | listDirectory p =>
    simp only [runTool, runListDirectory]
    cases o.validatePath p with
    | error e => simp [Guarded]
    | ok v =>
      simp only [Guarded]
      exact ⟨⟨v, List.mem_cons_self v [], Or.inl rfl⟩, trivial⟩
  | listDirectoryWithSizes p sortBy =>
    simp only [runTool, runListDirectoryWithSizes]
    cases o.validatePath p with
    | error e => simp [Guarded]
    | ok v =>
      cases hr : o.readdir v with
      | error e =>
        simp only [hr, Guarded]
        exact ⟨⟨v, List.mem_cons_self v [], Or.inl rfl⟩, trivial⟩
      | ok entries =>
        simp only [hr, List.cons_append, List.nil_append, Guarded]
        exact ⟨⟨v, List.mem_cons_self v [], Or.inl rfl⟩,
          guarded_stat_calls v [v] (List.mem_cons_self v []) entries⟩
  | getFileInfo p =>
    simp only [runTool, runGetFileInfo]
    cases o.validatePath p with
    | error e => simp [Guarded]
    | ok v =>
      simp only [Guarded]
      exact ⟨⟨v, List.mem_cons_self v [], Or.inl rfl⟩, trivial⟩
  | readTextFile p h t =>
    simp only [runTool, runReadTextFile]
    cases o.validatePath p with
    | error e => simp [Guarded]
    | ok v =>
      simp only [Guarded]
      exact ⟨⟨v, List.mem_cons_self v [], Or.inl rfl⟩, trivial⟩
  | readMultipleFiles ps =>
    simpa only [runTool, runReadMultipleFiles] using guarded_read_loop o ps []
  | writeFile p content =>
    simp only [runTool, runWriteFile]
    cases o.validatePath p with
    | error e => simp [Guarded]
    | ok v =>
      simp only [Guarded]
      exact ⟨⟨v, List.mem_cons_self v [], Or.inl rfl⟩, trivial⟩
  | editFile p es d =>
    simp only [runTool, runEditFile]
    cases o.validatePath p with
    | error e => simp [Guarded]
    | ok v =>
      simp only [Guarded]
      exact ⟨⟨v, List.mem_cons_self v [], Or.inl rfl⟩, trivial⟩
  | createDirectory p =>
    simp only [runTool, runCreateDirectory]
    cases o.validatePath p with
    | error e => simp [Guarded]
    | ok v =>
      simp only [Guarded]
      exact ⟨⟨v, List.mem_cons_self v [], Or.inl rfl⟩, trivial⟩
  | moveFile src dst =>
    simp only [runTool, runMoveFile]
    cases o.validatePath src with
    | error e => simp [Guarded]
    | ok s =>
      cases hd : o.validatePath dst with
      | error e => simp [hd, Guarded]
      | ok d =>
        simp only [hd, Guarded]
        exact ⟨⟨s, List.mem_cons_of_mem d (List.mem_cons_self s []), Or.inl rfl⟩,
          ⟨d, List.mem_cons_self d [s], Or.inl rfl⟩, trivial⟩
  | searchFiles p pat ex =>
    simp only [runTool, runSearchFiles]
    cases o.validatePath p with
    | error e => simp [Guarded]
    | ok v =>
      simp only [Guarded]
      exact ⟨⟨v, List.mem_cons_self v [], Or.inl rfl⟩, trivial⟩

end McpServer
